import Mathlib

/-!
Verification of the Berlincordero/Backend-Fragments "finca" social-feed
backend (Django, `src/finca/models.py`, `src/finca/views.py`,
`src/finca/serializers.py`) against its natural-language specification.

The relational store is embedded shallowly: each Django model becomes a row
structure, the database a record of row lists, and each view action a pure
function from the database (plus request data) to a response and an updated
database.  Timestamps (`created_at`, `auto_now_add`) are modelled by a
monotone `now : Nat` clock carried in the database.  Request-body strings
arrive as `Option String` (absent key = `none`), mirroring
`request.data.get(...)`, and Python `(x or "").strip()` becomes `pyStrip`.
-/

namespace Finca

/-- A row of `finca.models.Post`: author FK, text, `created_at`
(`auto_now_add`), and the nullable self-reference `repost_of`.
Media fields (`image`, `video`) are irrelevant to every claim and omitted. -/
structure PostRow where
  id : Nat
  author : Nat
  text : String
  createdAt : Nat
  repostOf : Option Nat
deriving DecidableEq, Repr

/-- A row of `PostStar` / `PostWhatsAppShare` / `PostSave` — the three
structurally identical interaction tables: `(post, user, created_at)` with a
`unique_together ("post", "user")` constraint. -/
structure InterRow where
  post : Nat
  user : Nat
  createdAt : Nat
deriving DecidableEq, Repr

/-- A row of `finca.models.Comment`: post FK, author, nullable parent-comment
self-reference, text and `created_at`. -/
structure CommentRow where
  id : Nat
  post : Nat
  user : Nat
  parent : Option Nat
  text : String
  createdAt : Nat
deriving DecidableEq, Repr

/-- A row of `finca.models.CoverSlide` exactly as declared in
`src/finca/models.py` lines 108-121: `user`, `index`, nullable `image`,
`caption`, `bibliography` (plus `updated_at`, omitted).  Note the model
declares NO style fields: there is no `text_x`, `text_y`, `text_color`,
`text_font`, `text_size` or `effect` column, although other code refers to
them (see `coverSlideSerializerFields`). -/
structure CoverSlideRow where
  user : Nat
  index : Nat
  image : Option String
  caption : String
  bibliography : String
deriving DecidableEq, Repr

/-- The relational store: one list per table, fresh-id counters for the two
tables whose primary keys the API exposes, and the clock used for
`auto_now_add` timestamps. -/
structure DB where
  posts : List PostRow
  stars : List InterRow
  comments : List CommentRow
  whatsappShares : List InterRow
  saves : List InterRow
  coverSlides : List CoverSlideRow
  nextPostId : Nat
  nextCommentId : Nat
  now : Nat
deriving Repr

/-- Python `(request.data.get(k) or "").strip()`. -/
def pyStrip (s : Option String) : String := (s.getD "").trim

/-- Python truthiness of an optional string request field: absent and the
empty string are falsy, any other string is truthy. -/
def pyTruthy (s : Option String) : Bool :=
  match s with
  | none => false
  | some v => v ≠ ""

/-- `Model.objects.filter(post=pk).count()` for one of the three interaction
tables: the number of live rows for the post. -/
def liveCount (rows : List InterRow) (pk : Nat) : Nat :=
  (rows.filter (fun r => r.post = pk)).length

/-- `post.comments.count()`: live comment rows of the post. -/
def commentsLive (db : DB) (pk : Nat) : Nat :=
  (db.comments.filter (fun c => c.post = pk)).length

/-- `post.reposts.count()`: a repost is a `Post` row whose `repost_of`
points at the post, so the count reads from the post table. -/
def repostsLive (db : DB) (pk : Nat) : Nat :=
  (db.posts.filter (fun p => p.repostOf = some pk)).length

/-- Whether an interaction row for the pair `(pk, u)` exists —
`Model.objects.filter(post=pk, user=u).exists()`, and the membership probe
behind `get_or_create`. -/
def pairPresent (rows : List InterRow) (pk u : Nat) : Bool :=
  rows.any (fun r => r.post = pk ∧ r.user = u)

/-- The `unique_together ("post", "user")` constraint of `PostStar`,
`PostWhatsAppShare` and `PostSave`: no two rows of the table agree on both
`post` and `user`. -/
def PairUnique (rows : List InterRow) : Prop :=
  List.Pairwise (fun r s => ¬(r.post = s.post ∧ r.user = s.user)) rows

/-- Response body of the star / save toggle endpoints:
`{"has_<kind>": bool, "<kind>_count": int}`. -/
structure ToggleResp where
  has : Bool
  count : Nat
deriving DecidableEq, Repr

/-- The toggle that `PostViewSet.star` (views.py 190-207) and
`PostViewSet.save` (views.py 341-357) both perform — the two bodies are
line-for-line identical apart from the table:
`Model.objects.get_or_create(post, user)`; when the row already existed it
is deleted (`has=False`), otherwise the fresh row stays (`has=True`); the
response carries the recomputed live count.  Takes and returns the table
and the clock. -/
def toggleCore (rows : List InterRow) (pk u n1 : Nat) :
    ToggleResp × List InterRow × Nat :=
  if pairPresent rows pk u then
    let rows1 := rows.filter (fun r => ¬(r.post = pk ∧ r.user = u))
    ({ has := false, count := liveCount rows1 pk }, rows1, n1)
  else
    let rows1 := rows ++ [{ post := pk, user := u, createdAt := n1 }]
    ({ has := true, count := liveCount rows1 pk }, rows1, n1 + 1)

/-- `PostViewSet.star`: `get_object_or_404(Post, pk)` (`none` models the
404), then the star toggle over the `PostStar` table. -/
def starAction (db : DB) (pk u : Nat) : Option (ToggleResp × DB) :=
  match db.posts.find? (fun p => p.id = pk) with
  | none => none
  | some _ =>
    let r := toggleCore db.stars pk u db.now
    some (r.1, { db with stars := r.2.1, now := r.2.2 })

/-- `PostViewSet.save`: the identical toggle over the `PostSave` table. -/
def saveAction (db : DB) (pk u : Nat) : Option (ToggleResp × DB) :=
  match db.posts.find? (fun p => p.id = pk) with
  | none => none
  | some _ =>
    let r := toggleCore db.saves pk u db.now
    some (r.1, { db with saves := r.2.1, now := r.2.2 })

/-- Response body of `PostViewSet.whatsapp`. -/
structure WaResp where
  created : Bool
  hasSharedWhatsapp : Bool
  whatsappCount : Nat
deriving DecidableEq, Repr

/-- `PostViewSet.whatsapp` (views.py 264-277): 404 on a missing post, then
`PostWhatsAppShare.objects.get_or_create(post, user)` — the row is inserted
only when absent and never deleted.  The view discards the `created` flag of
`get_or_create` and responds with the literal `"created": True` on every
call, together with the recomputed live count. -/
def whatsappAction (db : DB) (pk u : Nat) : Option (WaResp × DB) :=
  match db.posts.find? (fun p => p.id = pk) with
  | none => none
  | some _ =>
    let db1 :=
      if pairPresent db.whatsappShares pk u then db
      else { db with
        whatsappShares := db.whatsappShares ++ [{ post := pk, user := u, createdAt := db.now }],
        now := db.now + 1 }
    some ({ created := true, hasSharedWhatsapp := true,
            whatsappCount := liveCount db1.whatsappShares pk }, db1)

/-- Response body of `PostViewSet.repost` (the embedded `"repost"` payload is
reduced to the identity and text of the repost row, which is what the claims
inspect). -/
structure RepostResp where
  created : Bool
  hasReposted : Bool
  repostsCount : Nat
  repostId : Nat
  repostText : String
deriving DecidableEq, Repr

/-- `PostViewSet.repost` (views.py 300-318): 404 on a missing original, strip
the optional caption, then
`Post.objects.get_or_create(author=user, repost_of=original, defaults=text)`:
when a repost row by this author of this original already exists it is
returned unchanged (the caption is ignored), otherwise a fresh post row is
created carrying the caption.  The response reports the genuine `created`
flag and the live `original.reposts.count()`. -/
def repostAction (db : DB) (pk u : Nat) (textRaw : Option String) : Option (RepostResp × DB) :=
  match db.posts.find? (fun p => p.id = pk) with
  | none => none
  | some _ =>
    let caption := pyStrip textRaw
    match db.posts.find? (fun p => p.author = u ∧ p.repostOf = some pk) with
    | some existing =>
      some ({ created := false, hasReposted := true, repostsCount := repostsLive db pk,
              repostId := existing.id, repostText := existing.text }, db)
    | none =>
      let np : PostRow :=
        { id := db.nextPostId, author := u, text := caption,
          createdAt := db.now, repostOf := some pk }
      let db1 := { db with posts := db.posts ++ [np],
                           nextPostId := db.nextPostId + 1, now := db.now + 1 }
      some ({ created := true, hasReposted := true, repostsCount := repostsLive db1 pk,
              repostId := np.id, repostText := caption }, db1)

/-- The invariant of spec §3: at most one repost (a post row with a non-null
`repost_of`) per `(author, original)` pair. -/
def AtMostOneRepostPerPair (ps : List PostRow) : Prop :=
  List.Pairwise
    (fun p q => ¬(p.author = q.author ∧ p.repostOf = q.repostOf ∧ p.repostOf ≠ none)) ps

/-- Error taxonomy of the views: `get_object_or_404` → `notFound`, the empty
comment text → `validation` (HTTP 400), ownership failure → `forbidden`. -/
inductive ApiError where
  | notFound
  | validation
  | forbidden
deriving DecidableEq, Repr

/-- Response body of a successful `POST .../comments/`: the created comment
(id, stored text, parent) plus the fresh `post.comments.count()`. -/
structure CommentResp where
  commentId : Nat
  text : String
  parent : Option Nat
  count : Nat
deriving DecidableEq, Repr

/-- `PostViewSet.comments`, POST branch (views.py 250-261):
404 on a missing post; `text = (request.data.get("text") or "").strip()` and
a 400 when it is empty; when a truthy `parent` id is supplied,
`get_object_or_404(Comment, pk=parent_id, post=post)` — a 404 when no
comment with that id belongs to THIS post; only then is the comment row
inserted.  On every error branch the returned database is the input
database, untouched. -/
def commentCreate (db : DB) (pk u : Nat) (textRaw : Option String)
    (parentId : Option Nat) : Except ApiError CommentResp × DB :=
  match db.posts.find? (fun p => p.id = pk) with
  | none => (.error .notFound, db)
  | some _ =>
    let text := pyStrip textRaw
    if text = "" then (.error .validation, db)
    else
      let pid := parentId.getD 0
      if pid ≠ 0 then
        match db.comments.find? (fun c => c.id = pid ∧ c.post = pk) with
        | none => (.error .notFound, db)
        | some parent =>
          let c : CommentRow :=
            { id := db.nextCommentId, post := pk, user := u,
              parent := some parent.id, text := text, createdAt := db.now }
          let db1 := { db with comments := db.comments ++ [c],
                               nextCommentId := db.nextCommentId + 1, now := db.now + 1 }
          (.ok { commentId := c.id, text := c.text, parent := c.parent,
                 count := commentsLive db1 pk }, db1)
      else
        let c : CommentRow :=
          { id := db.nextCommentId, post := pk, user := u,
            parent := none, text := text, createdAt := db.now }
        let db1 := { db with comments := db.comments ++ [c],
                             nextCommentId := db.nextCommentId + 1, now := db.now + 1 }
        (.ok { commentId := c.id, text := c.text, parent := c.parent,
               count := commentsLive db1 pk }, db1)

/-- Whether deleting post `pk` reaches post `p` through the
`on_delete=CASCADE` of the `repost_of` self-reference (models.py 37-38):
`p` is deleted when it is the post itself, or when the post it reposts is
deleted.  The source relies on the acyclicity of `repost_of` (a repost is
always created after its original, so it has the larger id); the guard
`q.id < p.id` makes that reliance explicit and, under `RepostOriginOk`,
does not change the filtered set. -/
def postDeleted (ps : List PostRow) (pk : Nat) (p : PostRow) : Bool :=
  p.id = pk ||
    match p.repostOf with
    | none => false
    | some oid =>
      ((ps.filter (fun q => q.id = oid ∧ q.id < p.id)).attach.map
        (fun q => postDeleted ps pk q.val)).any (fun b => b)
termination_by p.id
decreasing_by

  have h := List.mem_filter.mp q.property
  simp only [decide_eq_true_eq] at h
  exact h.2.2

/-- Well-formedness maintained by the API for the `repost_of` reference: the
original of every repost is a stored post with a strictly smaller id
(`repost` only ever points a fresh row at an already existing post). -/
def RepostOriginOk (ps : List PostRow) : Prop :=
  ∀ q ∈ ps, q.repostOf.all (fun oid => ps.any (fun o => o.id = oid ∧ oid < q.id))

/-- Whether a comment row is removed when the posts in `dead` are deleted:
its own post is gone (`Comment.post` FK, `on_delete=CASCADE`), or its parent
comment is removed (`Comment.parent` self-reference, `on_delete=CASCADE`,
models.py 65).  As with `postDeleted`, the guard `q.id < c.id` spells out
the acyclicity of the parent chain (a reply is created after its parent). -/
def commentDeleted (cs : List CommentRow) (dead : List Nat) (c : CommentRow) : Bool :=
  c.post ∈ dead ||
    match c.parent with
    | none => false
    | some pid =>
      ((cs.filter (fun q => q.id = pid ∧ q.id < c.id)).attach.map
        (fun q => commentDeleted cs dead q.val)).any (fun b => b)
termination_by c.id
decreasing_by

  have h := List.mem_filter.mp q.property
  simp only [decide_eq_true_eq] at h
  exact h.2.2

/-- Well-formedness maintained by the API for comment parents: every parent
reference names a comment with a strictly smaller id (a reply is only ever
attached to an already stored comment). -/
def ParentIdLt (cs : List CommentRow) : Prop :=
  ∀ c ∈ cs, c.parent.all (fun pid => pid < c.id)

/-- The ids removed from the post table when post `pk` is deleted. -/
def deletedPostIds (ps : List PostRow) (pk : Nat) : List Nat :=
  (ps.filter (postDeleted ps pk)).map (fun p => p.id)

/-- `PostViewSet.destroy` (views.py 120-124): fetch the post (404 when
absent), check `IsAuthor` (403 otherwise), then `instance.delete()`, which
cascades through every FK declared with `on_delete=CASCADE`: the stars,
saves and WhatsApp shares of every deleted post, every repost of a deleted
post (transitively), and every comment of a deleted post together with the
replies hanging off a deleted comment. -/
def destroyAction (db : DB) (pk u : Nat) : Except ApiError Unit × DB :=
  match db.posts.find? (fun p => p.id = pk) with
  | none => (.error .notFound, db)
  | some p =>
    if p.author = u then
      let dead := deletedPostIds db.posts pk
      (.ok (), { db with
        posts := db.posts.filter (fun q => ¬ postDeleted db.posts pk q),
        stars := db.stars.filter (fun r => r.post ∉ dead),
        saves := db.saves.filter (fun r => r.post ∉ dead),
        whatsappShares := db.whatsappShares.filter (fun r => r.post ∉ dead),
        comments := db.comments.filter (fun c => ¬ commentDeleted db.comments dead c) })
    else (.error .forbidden, db)

/-- The comments that spec §8 requires a deletion of post `pk` to remove:
the post's own comments, and transitively every reply hanging under one of
them. -/
inductive DescOfPost (cs : List CommentRow) (pk : Nat) : CommentRow → Prop where
  | base {c} : c ∈ cs → c.post = pk → DescOfPost cs pk c
  | step {c p} : DescOfPost cs pk p → c ∈ cs → c.parent = some p.id → DescOfPost cs pk c

/-- The `order_by("created_at")` comparison used for comment listings. -/
def cLe (a b : CommentRow) : Prop := a.createdAt ≤ b.createdAt

instance : DecidableRel cLe := fun a b => inferInstanceAs (Decidable (a.createdAt ≤ b.createdAt))

instance : IsTotal CommentRow cLe := ⟨fun a b => Nat.le_total a.createdAt b.createdAt⟩

instance : IsTrans CommentRow cLe := ⟨fun _ _ _ => Nat.le_trans⟩

/-- The recursive comment tree produced by `CommentSerializer`: the comment's
own row plus its serialized replies. -/
inductive CTree where
  | node (c : CommentRow) (replies : List CTree)

/-- The comment at the root of a serialized tree. -/
def CTree.comment : CTree → CommentRow
  | .node c _ => c

/-- The serialized replies of a tree node. -/
def CTree.replies : CTree → List CTree
  | .node _ rs => rs

/-- `CommentSerializer.get_replies` (serializers.py 78-80), applied
recursively: the replies of a comment are all stored comments whose `parent`
is that comment, ordered ascending by creation time, each serialized in
turn.  The Python recursion terminates because a reply always has a larger
id than its parent; the guard `c.id < d.id` makes that explicit and, under
`ParentIdLt`, does not change the filtered set. -/
def serializeComment (cs : List CommentRow) (c : CommentRow) : CTree :=
  .node c
    ((((cs.filter (fun d => d.parent = some c.id ∧ c.id < d.id)).insertionSort cLe).attach.map
      (fun d => serializeComment cs d.val)))
termination_by (cs.filter (fun e => c.id < e.id)).length
decreasing_by
  have key : ∀ (l : List CommentRow) (P Q : CommentRow → Bool),
      (∀ x, P x = true → Q x = true) → ∀ e ∈ l, Q e = true → P e = false →
      (l.filter P).length < (l.filter Q).length := by
    intro l
    induction l with
    | nil =>
      intro P Q _ e he
      cases he
    | cons a l ih =>
      intro P Q hPQ e he hQ hP
      rw [List.filter_cons, List.filter_cons]
      rcases List.mem_cons.mp he with rfl | h
      · rw [hP, hQ]
        simp only [Bool.false_eq_true, if_false, if_true, List.length_cons]
        exact Nat.lt_succ_of_le (List.monotone_filter_right l hPQ).length_le
      · by_cases hPa : P a = true
        · rw [hPa, hPQ a hPa]
          simpa using Nat.succ_lt_succ (ih P Q hPQ e h hQ hP)
        · rw [Bool.not_eq_true] at hPa
          rw [hPa]
          by_cases hQa : Q a = true
          · rw [hQa]
            simp only [Bool.false_eq_true, if_false, if_true, List.length_cons]
            exact Nat.lt_succ_of_lt (ih P Q hPQ e h hQ hP)
          · rw [Bool.not_eq_true] at hQa
            rw [hQa]
            simpa using ih P Q hPQ e h hQ hP
  have hmem := List.mem_insertionSort cLe |>.mp d.property
  have hm2 := List.mem_filter.mp hmem
  simp only [decide_eq_true_eq] at hm2
  refine key cs _ _ (fun x hx => ?_) _ hm2.1 ?_ ?_
  · simp only [decide_eq_true_eq] at hx ⊢
    exact Nat.lt_trans hm2.2.2 hx
  · simp only [decide_eq_true_eq]
    exact hm2.2.2
  · simp

/-- `PostViewSet.comments`, GET branch (views.py 239-248): the root comments
of the post (`parent__isnull=True`), ordered ascending by creation time,
each serialized with its recursive replies. -/
def fetchTree (db : DB) (pk : Nat) : List CTree :=
  ((db.comments.filter (fun c => c.post = pk ∧ c.parent = none)).insertionSort cLe).map
    (serializeComment db.comments)

/-- SQL semantics of the feed's single
`annotate(stars_count=Count("stars"), comments_count=Count("comments"),
whatsapp_count=Count("whatsapp_shares"), reposts_count=Count("reposts"),
saves_count=Count("saves"))` (views.py 140-146): Django emits ONE query that
LEFT OUTER JOINs all five reverse relations simultaneously (no `distinct`),
so for one post the join yields the cross product of its interaction rows —
each arm contributes one row per matching interaction row, or a single
all-NULL row when it has none — and `COUNT(arm)` counts the non-NULL
occurrences of that arm across the product.  Hence the counted arm is
multiplied by `max 1 n` for every other arm. -/
def sqlJoinCount (target : Nat) (otherArms : List Nat) : Nat :=
  target * (otherArms.map (fun n => max n 1)).prod

/-- The `stars_count` annotation a feed row carries (views.py 141). -/
def feedAnnStarsCount (db : DB) (pk : Nat) : Nat :=
  sqlJoinCount (liveCount db.stars pk)
    [commentsLive db pk, liveCount db.whatsappShares pk, repostsLive db pk,
     liveCount db.saves pk]

/-- The `comments_count` annotation a feed row carries. -/
def feedAnnCommentsCount (db : DB) (pk : Nat) : Nat :=
  sqlJoinCount (commentsLive db pk)
    [liveCount db.stars pk, liveCount db.whatsappShares pk, repostsLive db pk,
     liveCount db.saves pk]

/-- The `whatsapp_count` annotation a feed row carries. -/
def feedAnnWhatsappCount (db : DB) (pk : Nat) : Nat :=
  sqlJoinCount (liveCount db.whatsappShares pk)
    [liveCount db.stars pk, commentsLive db pk, repostsLive db pk,
     liveCount db.saves pk]

/-- The `reposts_count` annotation a feed row carries. -/
def feedAnnRepostsCount (db : DB) (pk : Nat) : Nat :=
  sqlJoinCount (repostsLive db pk)
    [liveCount db.stars pk, commentsLive db pk, liveCount db.whatsappShares pk,
     liveCount db.saves pk]

/-- The `saves_count` annotation a feed row carries. -/
def feedAnnSavesCount (db : DB) (pk : Nat) : Nat :=
  sqlJoinCount (liveCount db.saves pk)
    [liveCount db.stars pk, commentsLive db pk, liveCount db.whatsappShares pk,
     repostsLive db pk]

/-- Python `a or b` on integers: `0` is falsy. -/
def pyOrNat (a b : Nat) : Nat := if a = 0 then b else a

/-- `PostSerializer.get_stars_count` (serializers.py 192-193) evaluated on a
feed row: `getattr(obj, "stars_count", None) or obj.stars.count()` — the
annotation is present on feed rows, so the live recount only runs when the
annotated value is 0. -/
def feedStarsCountField (db : DB) (pk : Nat) : Nat :=
  pyOrNat (feedAnnStarsCount db pk) (liveCount db.stars pk)

/-- The interaction kinds the aggregation engine projects. -/
inductive OpKind where
  | star
  | comment
  | repost
  | whatsapp
  | save
deriving DecidableEq, Repr

/-- The shapes of interaction-store queries the serializer can issue for one
kind: a row count, a `(post, viewer)` existence check, a top-3-by-recency
sample, an earliest-row fetch. -/
inductive OpType where
  | countQ
  | existsQ
  | sampleQ
  | firstQ
deriving DecidableEq, Repr

/-- One interaction-store query, tagged with the kind, the shape, and the
post it targets. -/
structure StoreOp where
  kind : OpKind
  typ : OpType
  post : Nat
deriving DecidableEq, Repr

/-- The interaction-store queries `PostSerializer` issues while rendering
the count / has / sample / first fields of ONE kind for ONE post
(serializers.py 192-216 for stars; the repost, whatsapp and save groups are
line-for-line identical): the count getter re-queries only when the
annotated value is falsy (`pyOrNat`); the has getter runs one existence
check when a viewer is authenticated; the sample and first getters each run
one query unconditionally.  Refiltering a prefetched related manager
(`obj.stars.select_related(...).order_by(...)`) bypasses the prefetch cache,
so each of these is a genuine per-post store query. -/
def interOps (k : OpKind) (ann : Nat) (auth : Bool) (pk : Nat) : List StoreOp :=
  (if ann = 0 then [⟨k, .countQ, pk⟩] else [])
    ++ (if auth then [⟨k, .existsQ, pk⟩] else [])
    ++ [⟨k, .sampleQ, pk⟩, ⟨k, .firstQ, pk⟩]

/-- The interaction-store queries issued while serializing one feed row, in
serializer field order (repost group, stars, comments, whatsapp, saves);
comments have only a count getter. -/
def feedPostOps (db : DB) (viewer : Option Nat) (p : PostRow) : List StoreOp :=
  let auth := viewer.isSome
  interOps .repost (feedAnnRepostsCount db p.id) auth p.id
    ++ interOps .star (feedAnnStarsCount db p.id) auth p.id
    ++ (if feedAnnCommentsCount db p.id = 0 then [⟨.comment, .countQ, p.id⟩] else [])
    ++ interOps .whatsapp (feedAnnWhatsappCount db p.id) auth p.id
    ++ interOps .save (feedAnnSavesCount db p.id) auth p.id

/-- The `order_by("-created_at")` comparison of the feed queryset. -/
def pDesc (a b : PostRow) : Prop := b.createdAt ≤ a.createdAt

instance : DecidableRel pDesc := fun a b => inferInstanceAs (Decidable (b.createdAt ≤ a.createdAt))

/-- The feed queryset (views.py 130-148): every post, reverse-chronological. -/
def feedQS (db : DB) : List PostRow := db.posts.insertionSort pDesc

/-- All interaction-store queries issued while serializing the global feed
for the given viewer: the per-post query lists of every feed row,
concatenated. -/
def feedOps (db : DB) (viewer : Option Nat) : List StoreOp :=
  ((feedQS db).map (feedPostOps db viewer)).flatten

/-- The attribute names `finca.models.CoverSlide` actually declares
(models.py 108-121). -/
def coverSlideModelFields : List String :=
  ["id", "user", "index", "image", "caption", "bibliography", "updated_at"]

/-- The field names `CoverSlideSerializer.Meta.fields` declares
(serializers.py 284-291) — including six style fields that do not exist on
the model. -/
def coverSlideSerializerFields : List String :=
  ["id", "index", "image", "caption", "bibliography",
   "text_color", "text_font", "text_x", "text_y", "text_size", "effect",
   "updated_at"]

/-- `hasattr(cover_slide_instance, f)`: a Django model instance has exactly
the attributes of its declared fields. -/
def coverSlideHasAttr (f : String) : Bool := f ∈ coverSlideModelFields

/-- `_set_if_has(field, value, caster)` inside `CoverSlideViewSet.create`
(views.py 452-459): a `None` value returns immediately; otherwise the write
happens only when the model has the attribute, and any cast failure is
swallowed.  The Bool reports whether a `setattr` was performed.  Because
`CoverSlide` declares none of the six style attributes, the write branch is
unreachable for them, so it cannot alter the row either. -/
def setIfHas (obj : CoverSlideRow) (field : String) (value : Option String) :
    CoverSlideRow × Bool :=
  match value with
  | none => (obj, false)
  | some _ => if coverSlideHasAttr field then (obj, true) else (obj, false)

/-- The per-slot fields of a `POST /cover-slides/` request for one index:
optional uploaded file, clear flag, per-slot caption/bibliography, and the
six style values (views.py 423-433). -/
structure SlotInput where
  file : Option String
  clear : Option String
  caption : Option String
  bibliography : Option String
  textX : Option String
  textY : Option String
  color : Option String
  font : Option String
  textSize : Option String
  effect : Option String
deriving DecidableEq, Repr

/-- The names of the six style fields `CoverSlideViewSet.create` tries to
store, in source order (views.py 462-467). -/
def styleFieldNames : List String :=
  ["text_x", "text_y", "text_color", "text_font", "text_size", "effect"]

/-- The six `(field, value)` pairs handed to `_set_if_has`
(views.py 462-467), in source order. -/
def styleFieldValues (inp : SlotInput) : List (String × Option String) :=
  [("text_x", inp.textX), ("text_y", inp.textY), ("text_color", inp.color),
   ("text_font", inp.font), ("text_size", inp.textSize), ("effect", inp.effect)]

/-- The six `_set_if_has` calls of one slot upsert, folded left to right;
returns the resulting row and the list of style fields actually written. -/
def applyStyles (obj : CoverSlideRow) (inp : SlotInput) : CoverSlideRow × List String :=
  (styleFieldValues inp).foldl
    (fun acc fv =>
      let st := setIfHas acc.1 fv.1 fv.2
      (st.1, acc.2 ++ (if st.2 then [fv.1] else [])))
    (obj, [])

/-- The `get_or_create(user=..., index=idx)` opening the per-index loop of
`CoverSlideViewSet.create` (views.py 435): returns the existing slot row,
or a fresh blank row appended to the table. -/
def upsertBase (slides : List CoverSlideRow) (u idx : Nat) :
    CoverSlideRow × List CoverSlideRow :=
  match slides.find? (fun s => s.user = u ∧ s.index = idx) with
  | some s => (s, slides)
  | none =>
    let s : CoverSlideRow :=
      { user := u, index := idx, image := none, caption := "", bibliography := "" }
    (s, slides ++ [s])

/-- The field updates of one slot upsert (views.py 437-467): the clear flag
drops the image but keeps the row, a new file replaces the image, the
per-slot caption/bibliography land with fallback to the request-level
common values — both guarded, so when the per-slot and the common value are
blank the stored text is left untouched — and finally the six `_set_if_has`
style writes (which never fire, see `setIfHas`). -/
def applySlotFields (obj : CoverSlideRow) (cc cb : String) (inp : SlotInput) :
    CoverSlideRow :=
  let obj1 := if pyTruthy inp.clear then { obj with image := none } else obj
  let obj2 :=
    match inp.file with
    | some f => { obj1 with image := some f }
    | none => obj1
  let sc := pyStrip inp.caption
  let sb := pyStrip inp.bibliography
  let obj3 :=
    if sc ≠ "" ∨ cc ≠ "" then { obj2 with caption := if sc ≠ "" then sc else cc } else obj2
  let obj4 :=
    if sb ≠ "" ∨ cb ≠ "" then { obj3 with bibliography := if sb ≠ "" then sb else cb } else obj3
  (applyStyles obj4 inp).1

/-- One full iteration of the per-index loop of `CoverSlideViewSet.create`
(views.py 422-470): `get_or_create`, the field updates, then `obj.save()`
(modelled as replacing the row with the slot's key).  Returns the saved row
and the updated table. -/
def upsertSlot (slides : List CoverSlideRow) (u idx : Nat) (cc cb : String)
    (inp : SlotInput) : CoverSlideRow × List CoverSlideRow :=
  let base := upsertBase slides u idx
  let obj5 := applySlotFields base.1 cc cb inp
  (obj5, base.2.map (fun s => if s.user = u ∧ s.index = idx then obj5 else s))

/-- `CoverSlideViewSet.create` (views.py 417-474): strip the request-level
common caption/bibliography, then upsert slots 0, 1 and 2 in order; the
response lists the three saved rows.  Returns (updated table, response
rows). -/
def coverSlidesCreate (slides : List CoverSlideRow) (u : Nat)
    (commonCaption commonBiblio : Option String) (inputs : Nat → SlotInput) :
    List CoverSlideRow × List CoverSlideRow :=
  let cc := pyStrip commonCaption
  let cb := pyStrip commonBiblio
  [0, 1, 2].foldl
    (fun acc idx =>
      let r := upsertSlot acc.1 u idx cc cb (inputs idx)
      (r.2, acc.2 ++ [r.1]))
    (slides, [])

/-- The `unique_together ("user", "index")` constraint of `CoverSlide`. -/
def SlideKeyUnique (slides : List CoverSlideRow) : Prop :=
  List.Pairwise (fun r s => ¬(r.user = s.user ∧ r.index = s.index)) slides

/-- An empty store with fresh counters. -/
def emptyDB : DB :=
  { posts := [], stars := [], comments := [], whatsappShares := [], saves := [],
    coverSlides := [], nextPostId := 1, nextCommentId := 1, now := 0 }

/-- A store holding one post (id 1 by user 10) with one star and two
comments — the smallest configuration on which the feed's multi-join count
annotations disagree with the live counts. -/
def dbOneStarTwoComments : DB :=
  { emptyDB with
    posts := [{ id := 1, author := 10, text := "hola", createdAt := 0, repostOf := none }],
    stars := [{ post := 1, user := 20, createdAt := 1 }],
    comments :=
      [{ id := 1, post := 1, user := 21, parent := none, text := "a", createdAt := 2 },
       { id := 2, post := 1, user := 22, parent := none, text := "b", createdAt := 3 }],
    nextPostId := 2, nextCommentId := 3, now := 4 }

/-- A store holding one plain post (id 1 by user 10) and nothing else. -/
def dbOnePost : DB :=
  { emptyDB with
    posts := [{ id := 1, author := 10, text := "p", createdAt := 0, repostOf := none }],
    nextPostId := 2, now := 1 }

/-- A store holding three plain posts and no interactions. -/
def dbThreePosts : DB :=
  { emptyDB with
    posts :=
      [{ id := 1, author := 10, text := "a", createdAt := 0, repostOf := none },
       { id := 2, author := 11, text := "b", createdAt := 1, repostOf := none },
       { id := 3, author := 12, text := "c", createdAt := 2, repostOf := none }],
    nextPostId := 4, now := 3 }

/-- The query-log predicate "is the viewer existence check of kind k". -/
def isExistsOf (k : OpKind) (o : StoreOp) : Bool :=
  o.kind = k && o.typ = OpType.existsQ

/-- Occurrence of a subtree anywhere in a serialized forest, at arbitrary
depth. -/
inductive TreeMem : CTree → List CTree → Prop where
  | base {t ts} : t ∈ ts → TreeMem t ts
  | step {t s ts} : s ∈ ts → TreeMem t s.replies → TreeMem t ts

/-- A serialized tree is Good for the stored comments `cs` when every
node's listed replies are exactly the stored comments whose parent is that
node, in ascending creation order, recursively. -/
inductive GoodTree (cs : List CommentRow) : CTree → Prop where
  | mk (c : CommentRow) (rs : List CTree)
      (hmap : rs.map CTree.comment
        = (cs.filter (fun d => d.parent = some c.id)).insertionSort cLe)
      (hrec : ∀ r ∈ rs, GoodTree cs r) :
      GoodTree cs (.node c rs)

instance (ps : List PostRow) : Decidable (RepostOriginOk ps) :=
  inferInstanceAs (Decidable (∀ q ∈ ps,
    q.repostOf.all (fun oid => ps.any (fun o => o.id = oid ∧ oid < q.id)) = true))

instance (cs : List CommentRow) : Decidable (ParentIdLt cs) :=
  inferInstanceAs (Decidable (∀ c ∈ cs,
    c.parent.all (fun pid => pid < c.id) = true))

/-- A store with an original post (id 1 by user 10), a repost of it (id 2
by user 11), one star, one save, one WhatsApp share, and a comment with a
reply. -/
def dbCascade : DB :=
  { emptyDB with
    posts :=
      [{ id := 1, author := 10, text := "orig", createdAt := 0, repostOf := none },
       { id := 2, author := 11, text := "rp", createdAt := 5, repostOf := some 1 }],
    stars := [{ post := 1, user := 20, createdAt := 1 }],
    saves := [{ post := 1, user := 21, createdAt := 2 }],
    whatsappShares := [{ post := 1, user := 22, createdAt := 3 }],
    comments :=
      [{ id := 1, post := 1, user := 23, parent := none, text := "c1", createdAt := 1 },
       { id := 2, post := 1, user := 24, parent := some 1, text := "r1", createdAt := 2 }],
    nextPostId := 3, nextCommentId := 3, now := 6 }

/-- A store whose comment rows are listed in an order unrelated to ids or
creation times: two roots (ids 1, 5) and replies 2, 3 under root 1 with a
reply-of-reply 4 under 3. -/
def dbTree : DB :=
  { emptyDB with
    posts := [{ id := 1, author := 10, text := "p", createdAt := 0, repostOf := none }],
    comments :=
      [{ id := 3, post := 1, user := 5, parent := some 1, text := "r2", createdAt := 30 },
       { id := 1, post := 1, user := 4, parent := none, text := "a", createdAt := 10 },
       { id := 4, post := 1, user := 6, parent := some 3, text := "rr", createdAt := 40 },
       { id := 2, post := 1, user := 5, parent := some 1, text := "r1", createdAt := 20 },
       { id := 5, post := 1, user := 7, parent := none, text := "b", createdAt := 5 }],
    nextPostId := 2, nextCommentId := 6, now := 50 }

/-- A stored cover slide for user 1, slot 0, with an image and both texts. -/
def exSlide0 : CoverSlideRow :=
  { user := 1, index := 0, image := some "img.png", caption := "cap", bibliography := "bib" }

/-- A one-slide cover table. -/
def exSlides : List CoverSlideRow := [exSlide0]

/-- A slot input supplying nothing: no file, no clear flag, no texts, no
style values. -/
def exBlankInput : SlotInput :=
  { file := none, clear := none, caption := none, bibliography := none,
    textX := none, textY := none, color := none, font := none,
    textSize := none, effect := none }

/-- When `P` implies `Q` elementwise and the list holds a witness satisfying
`Q` but not `P`, the `P`-filtrate is strictly shorter than the `Q`-filtrate. -/
theorem length_filter_lt_of_strict {α : Type} {l : List α} {P Q : α → Bool}
    (hPQ : ∀ x, P x = true → Q x = true) {d : α} (hd : d ∈ l)
    (hQ : Q d = true) (hP : P d = false) :
    (l.filter P).length < (l.filter Q).length := by
  induction l with
  | nil => cases hd
  | cons a l ih =>
    rw [List.filter_cons, List.filter_cons]
    rcases List.mem_cons.mp hd with rfl | h
    · rw [hP, hQ]
      simp only [Bool.false_eq_true, if_false, if_true, List.length_cons]
      exact Nat.lt_succ_of_le (List.monotone_filter_right l hPQ).length_le
    · by_cases hPa : P a = true
      · rw [hPa, hPQ a hPa]
        simpa using Nat.succ_lt_succ (ih h)
      · rw [Bool.not_eq_true] at hPa
        rw [hPa]
        by_cases hQa : Q a = true
        · rw [hQa]
          simp only [Bool.false_eq_true, if_false, if_true, List.length_cons]
          exact Nat.lt_succ_of_lt (ih h)
        · rw [Bool.not_eq_true] at hQa
          rw [hQa]
          simpa using ih h

/-- C1: the claim — every aggregate count reported by a collection endpoint
equals the live row count of the corresponding store — fails on the global
feed.  The feed annotates the five counts in one `annotate(...)` over five
simultaneously LEFT-JOINed relations with no `distinct`, so on a post with
one star and two comments the serialized `stars_count` is 2 (one star row ×
two comment join rows) while the star store holds exactly one live row.
The detail endpoints (which recount via `filter(post=...).count()`) are
unaffected; the collection endpoints are wrong whenever a post has rows in
two or more of the annotated relations. -/
theorem C1_feed_count_inflated :
    feedStarsCountField dbOneStarTwoComments 1 = 2 ∧
    liveCount dbOneStarTwoComments.stars 1 = 1 ∧
    commentsLive dbOneStarTwoComments 1 = 2 := by
  decide

/-- C2 counterexample: the claim demands that the second WhatsApp share of
the same `(post, user)` pair reports `created = false`; on the code the
second call on post 1 by user 20 (after an identical first call) responds
with `created = true` — views.py 273 hardcodes the literal `True` and
discards the flag returned by `get_or_create` — even though the count is
still 1. -/
theorem C2_counterexample_second_created_true :
    ((whatsappAction dbOnePost 1 20).bind fun x =>
      (whatsappAction x.2 1 20).map fun y => (y.1.created, y.1.whatsappCount))
      = some (true, 1) := by
  decide

/-- Every `applyStyles` run returns the row unchanged and records zero
writes: for each of the six style names the `hasattr` guard fails. -/
theorem applyStyles_eq (obj : CoverSlideRow) (inp : SlotInput) :
    applyStyles obj inp = (obj, []) := by
  rcases inp with ⟨f, cl, cap, bib, tx, ty, co, fo, ts, ef⟩
  cases tx <;> cases ty <;> cases co <;> cases fo <;> cases ts <;> cases ef <;>
    simp [applyStyles, styleFieldValues, setIfHas, coverSlideHasAttr,
          coverSlideModelFields]

/-- C9: the cover-slide style fields are never applied.  `_set_if_has`
guards every write with `hasattr`, and `finca.models.CoverSlide` declares
none of the six style attributes, so every `applyStyles` run returns the row
unchanged and records zero writes; meanwhile `CoverSlideSerializer` declares
all six style names over the same model, fields the model does not have.
The claim — that the per-slot position/style values are applied to the slot
and returned in the listing — is therefore contradicted by the code itself:
the view drops the values, and the serializer's field list does not match
the model it serializes. -/
theorem C9_style_fields_never_applied :
    (∀ (obj : CoverSlideRow) (inp : SlotInput), applyStyles obj inp = (obj, []))
  ∧ (∀ (inp : SlotInput), (styleFieldValues inp).map (fun fv => fv.1) = styleFieldNames)
  ∧ (∀ f ∈ styleFieldNames,
      f ∈ coverSlideSerializerFields ∧ ¬ f ∈ coverSlideModelFields) := by
  refine ⟨?_, ?_, ?_⟩
  · intro obj inp
    exact applyStyles_eq obj inp
  · intro inp
    rfl
  · decide

/-- When some stored post carries the requested id, `get_object_or_404`
succeeds, i.e. the embedded `find?` returns a row. -/
theorem find_post_some {db : DB} {pk : Nat} (h : ∃ p ∈ db.posts, p.id = pk) :
    ∃ q, db.posts.find? (fun x => x.id = pk) = some q := by
  apply Option.isSome_iff_exists.mp
  rw [List.find?_isSome]
  obtain ⟨p, hp, hid⟩ := h
  exact ⟨p, hp, by simp [hid]⟩

/-- C2 (amended): the second WhatsApp share of `(P, U)` inserts no row and
leaves `whatsapp_count` unchanged, but the WhatsApp endpoint reports
`created = true` on EVERY call (views.py 273 hardcodes the literal and
discards the flag of `get_or_create`), so the `created`-iff-inserted
contract of the claim holds only for the repost endpoint, whose response
does report the genuine flag: its `created` is true exactly when the call
added a post row. -/
theorem C2_whatsapp_second_call_noop (db : DB) (pk u : Nat)
    (hpost : ∃ p ∈ db.posts, p.id = pk) :
    ∃ r1 db1 r2 db2,
      whatsappAction db pk u = some (r1, db1) ∧
      whatsappAction db1 pk u = some (r2, db2) ∧
      db2 = db1 ∧
      r2.whatsappCount = r1.whatsappCount ∧
      r1.created = true ∧ r2.created = true ∧
      (∀ t r dbr, repostAction db pk u t = some (r, dbr) →
        (r.created = true ↔ dbr.posts.length = db.posts.length + 1)) := by
  obtain ⟨q, hq⟩ := find_post_some hpost
  have hrepost : ∀ t r dbr, repostAction db pk u t = some (r, dbr) →
      (r.created = true ↔ dbr.posts.length = db.posts.length + 1) := by
    intro t r dbr h
    unfold repostAction at h
    rw [hq] at h
    cases hfind : db.posts.find? (fun p0 => p0.author = u ∧ p0.repostOf = some pk) with
    | some ex =>
      rw [hfind] at h
      simp only [Option.some.injEq, Prod.mk.injEq] at h
      obtain ⟨hr, hdb⟩ := h
      subst hdb
      rw [← hr]
      simp
    | none =>
      rw [hfind] at h
      simp only [Option.some.injEq, Prod.mk.injEq] at h
      obtain ⟨hr, hdb⟩ := h
      subst hdb
      rw [← hr]
      simp
  by_cases hpair : pairPresent db.whatsappShares pk u
  · refine ⟨{ created := true, hasSharedWhatsapp := true,
              whatsappCount := liveCount db.whatsappShares pk }, db,
            { created := true, hasSharedWhatsapp := true,
              whatsappCount := liveCount db.whatsappShares pk }, db,
            ?_, ?_, rfl, rfl, rfl, rfl, hrepost⟩ <;>
    · unfold whatsappAction
      rw [hq]
      simp [hpair]
  · have hq1 : ∀ rows : List InterRow, ∀ n : Nat,
        ({ db with whatsappShares := rows, now := n } : DB).posts.find?
          (fun x => x.id = pk) = some q := fun _ _ => hq
    refine ⟨{ created := true, hasSharedWhatsapp := true,
              whatsappCount := liveCount
                (db.whatsappShares ++ [{ post := pk, user := u, createdAt := db.now }]) pk },
            { db with
              whatsappShares := db.whatsappShares ++ [{ post := pk, user := u, createdAt := db.now }],
              now := db.now + 1 },
            { created := true, hasSharedWhatsapp := true,
              whatsappCount := liveCount
                (db.whatsappShares ++ [{ post := pk, user := u, createdAt := db.now }]) pk },
            _, ?_, ?_, rfl, rfl, rfl, rfl, hrepost⟩
    · unfold whatsappAction
      rw [hq]
      simp [hpair]
    · unfold whatsappAction
      rw [hq1]
      have hpair2 : pairPresent
          (db.whatsappShares ++ [{ post := pk, user := u, createdAt := db.now }]) pk u = true := by
        unfold pairPresent
        rw [List.any_append]
        simp
      simp [hpair2]

/-- C8 counterexample: the claim requires one existence check per kind
across the whole post set; serializing a three-post feed issues THREE star
existence checks — `get_has_starred` runs
`PostStar.objects.filter(post=obj, user=user).exists()` once per post — so
the batched `O(kinds)` bound is violated as soon as the feed holds more
than one post. -/
theorem C8_counterexample_three_exists_checks :
    (feedOps dbThreePosts (some 9)).countP (isExistsOf OpKind.star) = 3 ∧
    dbThreePosts.posts.length = 3 := by
  decide

/-- Inside one kind's getter group, the existence-check count is one for
the group's own kind and zero for any other kind. -/
theorem countP_interOps_exists (k kk : OpKind) (ann : Nat) (pk : Nat) :
    (interOps kk ann true pk).countP (isExistsOf k) = if kk = k then 1 else 0 := by
  unfold interOps isExistsOf
  by_cases h : ann = 0 <;>
    simp only [h, if_true, if_false, List.countP_append, List.countP_cons,
      List.countP_nil, Bool.false_eq_true] <;>
    cases kk <;> cases k <;> simp

/-- A list whose elements are all mapped to 1 sums to its length. -/
theorem sum_map_one {α : Type} (l : List α) (f : α → Nat) (h : ∀ x ∈ l, f x = 1) :
    (l.map f).sum = l.length := by
  induction l with
  | nil => rfl
  | cons a l ih =>
    simp only [List.map_cons, List.sum_cons, List.length_cons,
      h a (List.mem_cons_self a l), ih (fun x hx => h x (List.mem_cons_of_mem a hx))]
    omega

/-- Serializing one feed row for an authenticated viewer issues exactly one
existence check of each has-kind. -/
theorem countP_feedPostOps_exists (db : DB) (u : Nat) (p : PostRow) (k : OpKind)
    (hk : k ≠ OpKind.comment) :
    (feedPostOps db (some u) p).countP (isExistsOf k) = 1 := by
  unfold feedPostOps
  simp only [Option.isSome_some, List.countP_append, countP_interOps_exists]
  have hc : (if feedAnnCommentsCount db p.id = 0
      then [({ kind := OpKind.comment, typ := OpType.countQ, post := p.id } : StoreOp)]
      else ([] : List StoreOp)).countP (isExistsOf k) = 0 := by
    by_cases h : feedAnnCommentsCount db p.id = 0 <;> simp [h, isExistsOf]
  rw [hc]
  cases k <;> simp at hk ⊢

set_option maxHeartbeats 1000000 in
/-- C8 (amended): the feed serializer does NOT batch the viewer-state
projections: for an authenticated viewer it issues one interaction-store
existence check per post for EACH of the four has-kinds (star, repost,
whatsapp, save) — `O(kinds × N)` store operations in the number of feed
posts — rather than the one batched existence check per kind the design
rule demands; only the count annotations (and the base row prefetches) are
batched. -/
theorem C8_per_post_existence_checks (db : DB) (u : Nat) :
    ∀ k ∈ [OpKind.star, OpKind.repost, OpKind.whatsapp, OpKind.save],
      (feedOps db (some u)).countP (isExistsOf k) = db.posts.length := by
  intro k hk
  have hkc : k ≠ OpKind.comment := by
    intro hc
    subst hc
    exact absurd hk (by decide)
  have hlen : (feedQS db).length = db.posts.length :=
    (List.perm_insertionSort pDesc db.posts).length_eq
  unfold feedOps
  rw [List.countP_flatten, List.map_map, ← hlen]
  apply sum_map_one
  intro p hp
  exact countP_feedPostOps_exists db u p k hkc

/-- C8 witness: the amended per-post-existence-check count evaluated on the
three-post store for the star kind. -/
theorem C8_per_post_existence_checks_witness :
    OpKind.star ∈ [OpKind.star, OpKind.repost, OpKind.whatsapp, OpKind.save] ∧
    (feedOps dbThreePosts (some 9)).countP (isExistsOf OpKind.star) =
      dbThreePosts.posts.length :=
  ⟨by decide, C8_per_post_existence_checks dbThreePosts 9 OpKind.star (by decide)⟩

/-- C6: comment creation fails with a validation error when the text is
empty after trimming, and with NotFound when the requested parent id names
no comment of the same post (a parent on a different post included); in
both cases the returned store is the input store — the failure precedes any
mutation and no comment row is created. -/
theorem C6_comment_validation (db : DB) (pk u : Nat) (textRaw : Option String)
    (parentId : Option Nat) (n : Nat)
    (hpost : ∃ p ∈ db.posts, p.id = pk) :
    (pyStrip textRaw = "" →
      commentCreate db pk u textRaw parentId = (.error .validation, db)) ∧
    (pyStrip textRaw ≠ "" → n ≠ 0 →
      (∀ c ∈ db.comments, c.id = n → c.post ≠ pk) →
      commentCreate db pk u textRaw (some n) = (.error .notFound, db)) := by
  obtain ⟨q, hq⟩ := find_post_some hpost
  constructor
  · intro ht
    unfold commentCreate
    rw [hq]
    simp [ht]
  · intro ht hn hpar
    unfold commentCreate
    rw [hq]
    have hfind : db.comments.find?
        (fun c => decide (c.id = n) && decide (c.post = pk)) = none := by
      rw [List.find?_eq_none]
      intro c hc
      simp only [Bool.and_eq_true, decide_eq_true_eq, not_and]
      intro h1
      exact hpar c hc h1
    simp [ht, hn, hfind]

/-- C6 witness: on a one-post store, a whitespace-only text is rejected with
a validation error, and a parent id naming no comment of post 1 is rejected
with NotFound; the store is unchanged both times. -/
theorem C6_comment_validation_witness :
    (∃ p ∈ dbOnePost.posts, p.id = 1) ∧
    ((pyStrip (some "  ") = "" →
      commentCreate dbOnePost 1 20 (some "  ") (some 5) = (.error .validation, dbOnePost)) ∧
    (pyStrip (some "  ") ≠ "" → (5 : Nat) ≠ 0 →
      (∀ c ∈ dbOnePost.comments, c.id = 5 → c.post ≠ 1) →
      commentCreate dbOnePost 1 20 (some "  ") (some 5) = (.error .notFound, dbOnePost))) :=
  ⟨by decide, C6_comment_validation dbOnePost 1 20 (some "  ") (some 5) 5 (by decide)⟩

/-- C3: reposting the same original twice by the same user creates no new
post row on the second call (the store is returned unchanged), reports
`created = false`, returns the same repost id as the first call, and ignores
the second caption — the stored and returned text stay those of the first
call; moreover one repost call preserves the at-most-one-repost-per-
`(author, original)`-pair invariant. -/
theorem C3_repost_idempotent (db : DB) (pk u : Nat) (t1 t2 : Option String)
    (hpost : ∃ p ∈ db.posts, p.id = pk) :
    ∃ r1 db1 r2 db2,
      repostAction db pk u t1 = some (r1, db1) ∧
      repostAction db1 pk u t2 = some (r2, db2) ∧
      r2.repostId = r1.repostId ∧ r2.created = false ∧ db2 = db1 ∧
      r2.repostText = r1.repostText ∧
      (AtMostOneRepostPerPair db.posts → AtMostOneRepostPerPair db1.posts) := by
  obtain ⟨q, hq⟩ := find_post_some hpost
  cases hfind : db.posts.find? (fun p => p.author = u ∧ p.repostOf = some pk) with
  | some ex =>
    refine ⟨{ created := false, hasReposted := true, repostsCount := repostsLive db pk,
              repostId := ex.id, repostText := ex.text }, db,
            { created := false, hasReposted := true, repostsCount := repostsLive db pk,
              repostId := ex.id, repostText := ex.text }, db,
            ?_, ?_, rfl, rfl, rfl, rfl, fun h => h⟩ <;>
    · unfold repostAction
      rw [hq, hfind]
  | none =>
    have hfindnp : ∀ np : PostRow, np.author = u → np.repostOf = some pk →
        ∀ rest : List PostRow,
        (db.posts ++ np :: rest).find? (fun p => p.author = u ∧ p.repostOf = some pk)
          = some np := by
      intro np hau hrep rest
      rw [List.find?_append, hfind]
      simp [List.find?_cons, hau, hrep]
    have hq1 : ∀ rest : List PostRow,
        (db.posts ++ rest).find? (fun x => x.id = pk) = some q := by
      intro rest
      rw [List.find?_append, hq]
      rfl
    refine ⟨{ created := true, hasReposted := true,
              repostsCount := repostsLive
                { db with
                  posts := db.posts ++
                    [{ id := db.nextPostId, author := u, text := pyStrip t1,
                       createdAt := db.now, repostOf := some pk }],
                  nextPostId := db.nextPostId + 1, now := db.now + 1 } pk,
              repostId := db.nextPostId, repostText := pyStrip t1 },
            { db with
              posts := db.posts ++
                [{ id := db.nextPostId, author := u, text := pyStrip t1,
                   createdAt := db.now, repostOf := some pk }],
              nextPostId := db.nextPostId + 1, now := db.now + 1 },
            { created := false, hasReposted := true,
              repostsCount := repostsLive
                { db with
                  posts := db.posts ++
                    [{ id := db.nextPostId, author := u, text := pyStrip t1,
                       createdAt := db.now, repostOf := some pk }],
                  nextPostId := db.nextPostId + 1, now := db.now + 1 } pk,
              repostId := db.nextPostId, repostText := pyStrip t1 },
            { db with
              posts := db.posts ++
                [{ id := db.nextPostId, author := u, text := pyStrip t1,
                   createdAt := db.now, repostOf := some pk }],
              nextPostId := db.nextPostId + 1, now := db.now + 1 },
            ?_, ?_, rfl, rfl, rfl, rfl, ?_⟩
    · unfold repostAction
      rw [hq, hfind]
    · unfold repostAction
      rw [hq1, hfindnp _ rfl rfl]
    · intro h
      unfold AtMostOneRepostPerPair at h ⊢
      rw [List.pairwise_append]
      refine ⟨h, List.pairwise_singleton _ _, ?_⟩
      intro a ha b hb
      simp only [List.mem_singleton] at hb
      subst hb
      intro hcon
      obtain ⟨hau, hrep, hne⟩ := hcon
      have hnot := List.find?_eq_none.mp hfind a ha
      simp only [decide_eq_true_eq, not_and] at hnot
      exact hnot hau hrep

/-- C3 witness: the double repost of post 1 by user 20 on the one-post
store, first caption "nice", second caption "ignored". -/
theorem C3_repost_idempotent_witness :
    (∃ p ∈ dbOnePost.posts, p.id = 1) ∧
    ∃ r1 db1 r2 db2,
      repostAction dbOnePost 1 20 (some "nice") = some (r1, db1) ∧
      repostAction db1 1 20 (some "ignored") = some (r2, db2) ∧
      r2.repostId = r1.repostId ∧ r2.created = false ∧ db2 = db1 ∧
      r2.repostText = r1.repostText ∧
      (AtMostOneRepostPerPair dbOnePost.posts → AtMostOneRepostPerPair db1.posts) :=
  ⟨by decide, C3_repost_idempotent dbOnePost 1 20 (some "nice") (some "ignored") (by decide)⟩

/-- The pair characterization of `pairPresent`. -/
theorem pairPresent_iff {rows : List InterRow} {pk u : Nat} :
    pairPresent rows pk u = true ↔ ∃ r ∈ rows, r.post = pk ∧ r.user = u := by
  unfold pairPresent
  rw [List.any_eq_true]
  simp

/-- Toggling off a pair that is absent removes nothing. -/
theorem filter_pair_of_absent {rows : List InterRow} {pk u : Nat}
    (h : pairPresent rows pk u = false) :
    rows.filter (fun r => ¬(r.post = pk ∧ r.user = u)) = rows := by
  rw [List.filter_eq_self]
  intro r hr
  simp only [decide_eq_true_eq]
  intro hcon
  have : pairPresent rows pk u = true := pairPresent_iff.mpr ⟨r, hr, hcon⟩
  rw [h] at this
  cases this

/-- After toggling off, the pair is absent. -/
theorem pairPresent_filter_self (rows : List InterRow) (pk u : Nat) :
    pairPresent (rows.filter (fun r => ¬(r.post = pk ∧ r.user = u))) pk u = false := by
  rw [← Bool.not_eq_true, pairPresent_iff]
  rintro ⟨r, hr, hcon⟩
  have := (List.mem_filter.mp hr).2
  simp only [decide_eq_true_eq] at this
  exact this hcon

/-- Toggling off one pair leaves every other pair's presence unchanged. -/
theorem pairPresent_filter_other {rows : List InterRow} {pk u q v : Nat}
    (hne : ¬(q = pk ∧ v = u)) :
    pairPresent (rows.filter (fun r => ¬(r.post = pk ∧ r.user = u))) q v
      = pairPresent rows q v := by
  cases hb : pairPresent rows q v with
  | true =>
    obtain ⟨r, hr, hrq⟩ := pairPresent_iff.mp hb
    apply pairPresent_iff.mpr
    refine ⟨r, List.mem_filter.mpr ⟨hr, ?_⟩, hrq⟩
    simp only [decide_eq_true_eq]
    intro hcon
    exact hne ⟨hrq.1 ▸ hcon.1, hrq.2 ▸ hcon.2⟩
  | false =>
    rw [← Bool.not_eq_true, pairPresent_iff]
    rintro ⟨r, hr, hrq⟩
    have : pairPresent rows q v = true :=
      pairPresent_iff.mpr ⟨r, (List.mem_filter.mp hr).1, hrq⟩
    rw [hb] at this
    cases this

/-- Appending a fresh `(pk, u)` row leaves every other pair's presence
unchanged and makes `(pk, u)` present. -/
theorem pairPresent_append (rows : List InterRow) (pk u t q v : Nat) :
    pairPresent (rows ++ [{ post := pk, user := u, createdAt := t }]) q v
      = (pairPresent rows q v || (q = pk ∧ v = u)) := by
  unfold pairPresent
  rw [List.any_append]
  simp [eq_comm]

/-- Toggling off a pair does not change the live count of other posts. -/
theorem liveCount_filter_other {rows : List InterRow} {pk u q : Nat} (hq : q ≠ pk) :
    liveCount (rows.filter (fun r => ¬(r.post = pk ∧ r.user = u))) q
      = liveCount rows q := by
  unfold liveCount
  rw [List.filter_filter]
  apply congrArg List.length
  apply List.filter_congr
  intro a ha
  by_cases h : a.post = q
  · simp [h, hq]
  · simp [h]

/-- Appending a `(pk, u)` row does not change the live count of other
posts. -/
theorem liveCount_append_other {rows : List InterRow} {pk u t q : Nat} (hq : q ≠ pk) :
    liveCount (rows ++ [{ post := pk, user := u, createdAt := t }]) q
      = liveCount rows q := by
  unfold liveCount
  rw [List.filter_append]
  simp [Ne.symm hq]

/-- Appending a `(pk, u)` row raises the post's live count by one. -/
theorem liveCount_append_same (rows : List InterRow) (pk u t : Nat) :
    liveCount (rows ++ [{ post := pk, user := u, createdAt := t }]) pk
      = liveCount rows pk + 1 := by
  unfold liveCount
  rw [List.filter_append]
  simp

/-- Under the uniqueness constraint, toggling off a present pair lowers the
post's live count by exactly one. -/
theorem liveCount_filter_present {rows : List InterRow} {pk u : Nat}
    (huniq : PairUnique rows) (hp : pairPresent rows pk u = true) :
    liveCount (rows.filter (fun r => ¬(r.post = pk ∧ r.user = u))) pk + 1
      = liveCount rows pk := by
  induction rows with
  | nil => cases hp
  | cons a rows ih =>
    unfold PairUnique at huniq
    rw [List.pairwise_cons] at huniq
    obtain ⟨ha, huniq1⟩ := huniq
    by_cases hm : a.post = pk ∧ a.user = u
    · have habsent : pairPresent rows pk u = false := by
        rw [← Bool.not_eq_true, pairPresent_iff]
        rintro ⟨b, hb, hbq⟩
        exact ha b hb ⟨hm.1.trans hbq.1.symm, hm.2.trans hbq.2.symm⟩
      rw [List.filter_cons]
      have hdm : (decide ¬(a.post = pk ∧ a.user = u)) = false := by simp [hm]
      rw [hdm]
      simp only [Bool.false_eq_true, if_false]
      rw [filter_pair_of_absent habsent]
      unfold liveCount
      rw [List.filter_cons]
      simp [hm.1]
    · have hp1 : pairPresent rows pk u = true := by
        unfold pairPresent at hp
        rw [List.any_cons] at hp
        have hda : (decide (a.post = pk ∧ a.user = u)) = false := by simp [hm]
        rw [hda] at hp
        simpa [pairPresent] using hp
      rw [List.filter_cons]
      have hdm : (decide ¬(a.post = pk ∧ a.user = u)) = true := by simp [hm]
      rw [hdm]
      simp only [if_true]
      unfold liveCount
      rw [List.filter_cons, List.filter_cons]
      have hcnt := ih huniq1 hp1
      unfold liveCount at hcnt
      by_cases hap : a.post = pk
      · simp [hap] at hcnt ⊢
        omega
      · simp [hap] at hcnt ⊢
        omega

/-- Two successive toggles of the same `(post, user)` pair restore the
pair-presence state of every pair and the live count of every post, and
each toggle's response reports the resulting boolean state and the fresh
live count. -/
theorem toggleCore_involution (rows : List InterRow) (pk u n1 : Nat)
    (huniq : PairUnique rows) :
    ∃ r1 rows1 n2 r2 rows2 n3,
      toggleCore rows pk u n1 = (r1, rows1, n2) ∧
      toggleCore rows1 pk u n2 = (r2, rows2, n3) ∧
      (∀ q v, pairPresent rows2 q v = pairPresent rows q v) ∧
      (∀ q, liveCount rows2 q = liveCount rows q) ∧
      r1.has = pairPresent rows1 pk u ∧ r1.count = liveCount rows1 pk ∧
      r2.has = pairPresent rows2 pk u ∧ r2.count = liveCount rows2 pk := by
  by_cases hp : pairPresent rows pk u
  · -- present: first toggle deletes, second re-inserts
    have hoff : pairPresent
        (rows.filter (fun r => ¬(r.post = pk ∧ r.user = u))) pk u = false :=
      pairPresent_filter_self rows pk u
    refine ⟨{ has := false,
              count := liveCount (rows.filter (fun r => ¬(r.post = pk ∧ r.user = u))) pk },
            rows.filter (fun r => ¬(r.post = pk ∧ r.user = u)), n1,
            { has := true,
              count := liveCount (rows.filter (fun r => ¬(r.post = pk ∧ r.user = u))
                ++ [({ post := pk, user := u, createdAt := n1 } : InterRow)]) pk },
            rows.filter (fun r => ¬(r.post = pk ∧ r.user = u))
              ++ [({ post := pk, user := u, createdAt := n1 } : InterRow)], n1 + 1,
            ?_, ?_, ?_, ?_, ?_, rfl, ?_, rfl⟩
    · unfold toggleCore
      rw [if_pos hp]
    · unfold toggleCore
      rw [if_neg (by rw [hoff]; simp)]
    · intro q v
      rw [pairPresent_append]
      by_cases hqq : q = pk ∧ v = u
      · simp only [hqq.1, hqq.2]
        simp [hp]
      · rw [pairPresent_filter_other hqq]
        simp [hqq]
    · intro q
      by_cases hqq : q = pk
      · subst hqq
        rw [liveCount_append_same, liveCount_filter_present huniq hp]
      · rw [liveCount_append_other hqq, liveCount_filter_other hqq]
    · exact hoff.symm
    · rw [pairPresent_append]
      simp
  · -- absent: first toggle inserts, second deletes the fresh row
    have hpf : pairPresent rows pk u = false := Bool.not_eq_true _ |>.mp hp
    have hon : pairPresent
        (rows ++ [({ post := pk, user := u, createdAt := n1 } : InterRow)]) pk u = true := by
      rw [pairPresent_append]
      simp
    have hrows2 : (rows ++ [({ post := pk, user := u, createdAt := n1 } : InterRow)]).filter
        (fun r => ¬(r.post = pk ∧ r.user = u)) = rows := by
      rw [List.filter_append, filter_pair_of_absent hpf]
      simp
    refine ⟨{ has := true,
              count := liveCount (rows ++ [({ post := pk, user := u, createdAt := n1 } : InterRow)]) pk },
            rows ++ [({ post := pk, user := u, createdAt := n1 } : InterRow)], n1 + 1,
            { has := false,
              count := liveCount ((rows ++ [({ post := pk, user := u, createdAt := n1 } : InterRow)]).filter
                (fun r => ¬(r.post = pk ∧ r.user = u))) pk },
            (rows ++ [({ post := pk, user := u, createdAt := n1 } : InterRow)]).filter
              (fun r => ¬(r.post = pk ∧ r.user = u)), n1 + 1,
            ?_, ?_, ?_, ?_, ?_, rfl, ?_, rfl⟩
    · unfold toggleCore
      rw [if_neg (by rw [hpf]; simp)]
    · unfold toggleCore
      rw [if_pos hon]
    · intro q v
      rw [hrows2]
    · intro q
      rw [hrows2]
    · exact hon.symm
    · rw [hrows2]
      exact hpf.symm

/-- C4: for an existing post and the store-level uniqueness constraint,
performing the star toggle (and likewise the save toggle) on `(P, U)` twice
in sequence restores the interaction store to its original state — the
presence state of every `(post, user)` pair (the state of spec §4.3) and
the live count of every post are back to their initial values — and each
toggle call's response reports the resulting boolean state together with
the freshly recomputed live count. -/
theorem C4_toggle_double_restores (db : DB) (pk u : Nat)
    (hpost : ∃ p ∈ db.posts, p.id = pk)
    (hstar : PairUnique db.stars) (hsave : PairUnique db.saves) :
    (∃ r1 db1 r2 db2,
      starAction db pk u = some (r1, db1) ∧
      starAction db1 pk u = some (r2, db2) ∧
      (∀ q v, pairPresent db2.stars q v = pairPresent db.stars q v) ∧
      (∀ q, liveCount db2.stars q = liveCount db.stars q) ∧
      r1.has = pairPresent db1.stars pk u ∧ r1.count = liveCount db1.stars pk ∧
      r2.has = pairPresent db2.stars pk u ∧ r2.count = liveCount db2.stars pk) ∧
    (∃ r1 db1 r2 db2,
      saveAction db pk u = some (r1, db1) ∧
      saveAction db1 pk u = some (r2, db2) ∧
      (∀ q v, pairPresent db2.saves q v = pairPresent db.saves q v) ∧
      (∀ q, liveCount db2.saves q = liveCount db.saves q) ∧
      r1.has = pairPresent db1.saves pk u ∧ r1.count = liveCount db1.saves pk ∧
      r2.has = pairPresent db2.saves pk u ∧ r2.count = liveCount db2.saves pk) := by
  obtain ⟨q0, hq⟩ := find_post_some hpost
  constructor
  · obtain ⟨r1, rows1, n2, r2, rows2, n3, h1, h2, hpp, hlc, e1, e2, e3, e4⟩ :=
      toggleCore_involution db.stars pk u db.now hstar
    refine ⟨r1, { db with stars := rows1, now := n2 },
            r2, { db with stars := rows2, now := n3 }, ?_, ?_, hpp, hlc, e1, e2, e3, e4⟩
    · unfold starAction
      rw [hq, h1]
    · unfold starAction
      have hq2 : ({ db with stars := rows1, now := n2 } : DB).posts.find?
          (fun x => x.id = pk) = some q0 := hq
      have h2a : toggleCore ({ db with stars := rows1, now := n2 } : DB).stars pk u
          ({ db with stars := rows1, now := n2 } : DB).now = (r2, rows2, n3) := h2
      rw [hq2, h2a]
  · obtain ⟨r1, rows1, n2, r2, rows2, n3, h1, h2, hpp, hlc, e1, e2, e3, e4⟩ :=
      toggleCore_involution db.saves pk u db.now hsave
    refine ⟨r1, { db with saves := rows1, now := n2 },
            r2, { db with saves := rows2, now := n3 }, ?_, ?_, hpp, hlc, e1, e2, e3, e4⟩
    · unfold saveAction
      rw [hq, h1]
    · unfold saveAction
      have hq2 : ({ db with saves := rows1, now := n2 } : DB).posts.find?
          (fun x => x.id = pk) = some q0 := hq
      have h2a : toggleCore ({ db with saves := rows1, now := n2 } : DB).saves pk u
          ({ db with saves := rows1, now := n2 } : DB).now = (r2, rows2, n3) := h2
      rw [hq2, h2a]

/-- C4 witness: the double star toggle and double save toggle of post 1 by
user 20 on the one-post store (both tables empty, so both uniqueness
constraints hold trivially). -/
theorem C4_toggle_double_restores_witness :
    ((∃ p ∈ dbOnePost.posts, p.id = 1) ∧ PairUnique dbOnePost.stars ∧
      PairUnique dbOnePost.saves) ∧
    ((∃ r1 db1 r2 db2,
      starAction dbOnePost 1 20 = some (r1, db1) ∧
      starAction db1 1 20 = some (r2, db2) ∧
      (∀ q v, pairPresent db2.stars q v = pairPresent dbOnePost.stars q v) ∧
      (∀ q, liveCount db2.stars q = liveCount dbOnePost.stars q) ∧
      r1.has = pairPresent db1.stars 1 20 ∧ r1.count = liveCount db1.stars 1 ∧
      r2.has = pairPresent db2.stars 1 20 ∧ r2.count = liveCount db2.stars 1) ∧
    (∃ r1 db1 r2 db2,
      saveAction dbOnePost 1 20 = some (r1, db1) ∧
      saveAction db1 1 20 = some (r2, db2) ∧
      (∀ q v, pairPresent db2.saves q v = pairPresent dbOnePost.saves q v) ∧
      (∀ q, liveCount db2.saves q = liveCount dbOnePost.saves q) ∧
      r1.has = pairPresent db1.saves 1 20 ∧ r1.count = liveCount db1.saves 1 ∧
      r2.has = pairPresent db2.saves 1 20 ∧ r2.count = liveCount db2.saves 1)) :=
  ⟨⟨by decide, List.Pairwise.nil, List.Pairwise.nil⟩,
    C4_toggle_double_restores dbOnePost 1 20 (by decide)
      List.Pairwise.nil List.Pairwise.nil⟩

/-- C2 witness: the amended WhatsApp statement evaluated on the one-post
store for user 20. -/
theorem C2_whatsapp_second_call_noop_witness :
    (∃ p ∈ dbOnePost.posts, p.id = 1) ∧
    ∃ r1 db1 r2 db2,
      whatsappAction dbOnePost 1 20 = some (r1, db1) ∧
      whatsappAction db1 1 20 = some (r2, db2) ∧
      db2 = db1 ∧
      r2.whatsappCount = r1.whatsappCount ∧
      r1.created = true ∧ r2.created = true ∧
      (∀ t r dbr, repostAction dbOnePost 1 20 t = some (r, dbr) →
        (r.created = true ↔ dbr.posts.length = dbOnePost.posts.length + 1)) :=
  ⟨by decide, C2_whatsapp_second_call_noop dbOnePost 1 20 (by decide)⟩

/-- A post row carrying the deleted id is itself deleted. -/
theorem postDeleted_self {ps : List PostRow} {pk : Nat} {p : PostRow}
    (h : p.id = pk) : postDeleted ps pk p = true := by
  rw [postDeleted]
  simp [h]

/-- When the deleted post is stored, its id is among the removed ids. -/
theorem mem_deletedPostIds_self {ps : List PostRow} {pk : Nat}
    (hp : ∃ p ∈ ps, p.id = pk) : pk ∈ deletedPostIds ps pk := by
  obtain ⟨p, hmem, hid⟩ := hp
  unfold deletedPostIds
  exact List.mem_map.mpr ⟨p, List.mem_filter.mpr ⟨hmem, postDeleted_self hid⟩, hid⟩

/-- Under `RepostOriginOk`, every direct repost of the deleted post is
deleted by the `repost_of` cascade. -/
theorem postDeleted_repost {ps : List PostRow} {pk : Nat}
    (hrep : RepostOriginOk ps) {q : PostRow} (hq : q ∈ ps)
    (hrepof : q.repostOf = some pk) : postDeleted ps pk q = true := by
  have h := hrep q hq
  rw [hrepof] at h
  simp only [Option.all_some, List.any_eq_true, decide_eq_true_eq] at h
  obtain ⟨o, ho, hoid, holt⟩ := h
  have hofilter : o ∈ ps.filter (fun x => x.id = pk ∧ x.id < q.id) := by
    refine List.mem_filter.mpr ⟨ho, ?_⟩
    simp [hoid, holt]
  rw [postDeleted, Bool.or_eq_true]
  right
  simp only [hrepof]
  rw [List.any_eq_true]
  refine ⟨postDeleted ps pk o, List.mem_map.mpr ⟨⟨o, hofilter⟩, List.mem_attach _ _, rfl⟩, ?_⟩
  simp [postDeleted_self hoid]

/-- A comment whose post is deleted is removed. -/
theorem commentDeleted_post {cs : List CommentRow} {dead : List Nat}
    {c : CommentRow} (h : c.post ∈ dead) : commentDeleted cs dead c = true := by
  rw [commentDeleted]
  simp [h]

/-- Under `ParentIdLt`, a comment whose stored parent is removed is removed
by the parent cascade. -/
theorem commentDeleted_parent {cs : List CommentRow} {dead : List Nat}
    (hpar : ParentIdLt cs) {c p : CommentRow} (hc : c ∈ cs) (hp : p ∈ cs)
    (hcp : c.parent = some p.id) (hdel : commentDeleted cs dead p = true) :
    commentDeleted cs dead c = true := by
  have hlt : p.id < c.id := by
    have h := hpar c hc
    rw [hcp] at h
    simpa using h
  have hpfilter : p ∈ cs.filter (fun x => x.id = p.id ∧ x.id < c.id) := by
    refine List.mem_filter.mpr ⟨hp, ?_⟩
    simp [hlt]
  rw [commentDeleted, Bool.or_eq_true]
  right
  simp only [hcp]
  rw [List.any_eq_true]
  exact ⟨commentDeleted cs dead p,
    List.mem_map.mpr ⟨⟨p, hpfilter⟩, List.mem_attach _ _, rfl⟩, by simp [hdel]⟩

/-- A comment of the deleted post, or a transitive reply under one, is a
stored comment. -/
theorem descOfPost_mem {cs : List CommentRow} {pk : Nat} {c : CommentRow}
    (h : DescOfPost cs pk c) : c ∈ cs := by
  cases h <;> assumption

/-- Every comment of the deleted post, and every transitive reply under
one, is removed. -/
theorem descOfPost_deleted {cs : List CommentRow} {pk : Nat} {dead : List Nat}
    (hpar : ParentIdLt cs) (hpk : pk ∈ dead) {c : CommentRow}
    (h : DescOfPost cs pk c) : commentDeleted cs dead c = true := by
  induction h with
  | base hmem hpost => exact commentDeleted_post (by rw [hpost]; exact hpk)
  | step hdesc hmem hcp ih =>
    exact commentDeleted_parent hpar hmem (descOfPost_mem hdesc) hcp ih

/-- C5: deleting a post (by its author) cascades to every dependent row: no
post with the deleted id survives, no repost of it survives, no star, save
or WhatsApp-share row of it survives, and no comment of the post — nor any
transitive reply hanging under one — remains queryable.  The hypotheses are
the well-formedness facts the API maintains: the post exists with the
acting author, post ids are distinct, each repost points at an
earlier-created stored original, and each comment parent is an
earlier-created comment. -/
theorem C5_destroy_cascades (db : DB) (pk u : Nat)
    (hpost : ∃ p ∈ db.posts, p.id = pk ∧ p.author = u)
    (hids : (db.posts.map (fun p => p.id)).Nodup)
    (hrep : RepostOriginOk db.posts) (hpar : ParentIdLt db.comments) :
    ∃ db2, destroyAction db pk u = (.ok (), db2) ∧
      (∀ p ∈ db2.posts, p.id ≠ pk) ∧
      (∀ p ∈ db2.posts, p.repostOf ≠ some pk) ∧
      (∀ r ∈ db2.stars, r.post ≠ pk) ∧
      (∀ r ∈ db2.saves, r.post ≠ pk) ∧
      (∀ r ∈ db2.whatsappShares, r.post ≠ pk) ∧
      (∀ c, DescOfPost db.comments pk c → c ∉ db2.comments) := by
  obtain ⟨p0, hmem0, hid0, hau0⟩ := hpost
  obtain ⟨q, hq⟩ := find_post_some ⟨p0, hmem0, hid0⟩
  have hqid : q.id = pk := by simpa using List.find?_some hq
  have hqmem : q ∈ db.posts := List.mem_of_find?_eq_some hq
  have hqp : q = p0 := List.inj_on_of_nodup_map hids hqmem hmem0 (by rw [hqid, hid0])
  have hqau : q.author = u := by rw [hqp]; exact hau0
  have hpkdead : pk ∈ deletedPostIds db.posts pk :=
    mem_deletedPostIds_self ⟨p0, hmem0, hid0⟩
  unfold destroyAction
  simp only [hq]
  rw [if_pos hqau]
  refine ⟨_, rfl, ?_, ?_, ?_, ?_, ?_, ?_⟩
  · intro p hp hcon
    have hnd := (List.mem_filter.mp hp).2
    simp only [decide_eq_true_eq] at hnd
    exact hnd (postDeleted_self hcon)
  · intro p hp hcon
    have hnd := (List.mem_filter.mp hp).2
    simp only [decide_eq_true_eq] at hnd
    exact hnd (postDeleted_repost hrep (List.mem_filter.mp hp).1 hcon)
  · intro r hr hcon
    have hnd := (List.mem_filter.mp hr).2
    simp only [decide_eq_true_eq] at hnd
    exact hnd (hcon ▸ hpkdead)
  · intro r hr hcon
    have hnd := (List.mem_filter.mp hr).2
    simp only [decide_eq_true_eq] at hnd
    exact hnd (hcon ▸ hpkdead)
  · intro r hr hcon
    have hnd := (List.mem_filter.mp hr).2
    simp only [decide_eq_true_eq] at hnd
    exact hnd (hcon ▸ hpkdead)
  · intro c hdesc hcmem
    have hnd := (List.mem_filter.mp hcmem).2
    simp only [decide_eq_true_eq] at hnd
    exact hnd (descOfPost_deleted hpar hpkdead hdesc)

/-- The root comment of a serialized tree is the serialized comment. -/
theorem serializeComment_comment (cs : List CommentRow) (c : CommentRow) :
    (serializeComment cs c).comment = c := by
  rw [serializeComment]
  rfl

/-- Under `ParentIdLt`, `serializeComment` produces a Good tree (strong
induction on the number of stored comments with a larger id). -/
theorem goodTree_serializeComment (cs : List CommentRow) (hP : ParentIdLt cs) :
    ∀ n c, (cs.filter (fun e => c.id < e.id)).length < n →
      GoodTree cs (serializeComment cs c) := by
  intro n
  induction n with
  | zero =>
    intro c h
    omega
  | succ n ih =>
    intro c hc
    rw [serializeComment]
    refine GoodTree.mk c _ ?_ ?_
    · rw [List.map_map]
      have h1 : (CTree.comment ∘ fun d : {x // x ∈ (cs.filter
            (fun d => d.parent = some c.id ∧ c.id < d.id)).insertionSort cLe} =>
              serializeComment cs d.val)
          = fun d => d.val := by
        funext d
        simp [Function.comp, serializeComment_comment]
      rw [h1, List.attach_map_subtype_val]
      congr 1
      apply List.filter_congr
      intro d hd
      by_cases hp : d.parent = some c.id
      · have hlt := hP d hd
        rw [hp] at hlt
        simp only [Option.all_some] at hlt
        simp only [decide_eq_true_eq] at hlt
        simp [hp, hlt]
      · simp [hp]
    · intro r hr
      obtain ⟨d, hd, rfl⟩ := List.mem_map.mp hr
      have hmem := (List.mem_insertionSort cLe).mp d.property
      have hm2 := List.mem_filter.mp hmem
      simp only [decide_eq_true_eq] at hm2
      apply ih
      have hdec := length_filter_lt_of_strict
        (l := cs) (P := fun e => decide (d.val.id < e.id))
        (Q := fun e => decide (c.id < e.id))
        (fun x hx => by
          simp only [decide_eq_true_eq] at hx ⊢
          exact Nat.lt_trans hm2.2.2 hx)
        hm2.1 (by simp only [decide_eq_true_eq]; exact hm2.2.2) (by simp)
      omega

/-- A node reached anywhere inside a forest of Good trees is Good. -/
theorem treeMem_good {cs : List CommentRow} {t : CTree} {ts : List CTree}
    (hmem : TreeMem t ts) (hall : ∀ s ∈ ts, GoodTree cs s) : GoodTree cs t := by
  induction hmem with
  | base h => exact hall _ h
  | step hs hsub ih =>
    have hgs := hall _ hs
    cases hgs with
    | mk c rs hmap hrec =>
      apply ih
      intro x hx
      exact hrec x hx

/-- C7: the comment-tree fetch returns exactly the root comments of the
post (those with no parent), in ascending creation order, and at EVERY
depth of the returned forest a node's replies are exactly the stored
comments whose parent is that node, in ascending creation order — all of
this for any insertion order of the underlying rows, given the
well-formedness fact the API maintains (a parent id is always smaller than
its reply's id). -/
theorem C7_comment_tree (db : DB) (pk : Nat) (hP : ParentIdLt db.comments) :
    List.Sorted cLe ((fetchTree db pk).map CTree.comment) ∧
    ((fetchTree db pk).map CTree.comment).Perm
      (db.comments.filter (fun c => c.post = pk ∧ c.parent = none)) ∧
    (∀ t, TreeMem t (fetchTree db pk) →
      List.Sorted cLe (t.replies.map CTree.comment) ∧
      (t.replies.map CTree.comment).Perm
        (db.comments.filter (fun d => d.parent = some t.comment.id))) := by
  have hroots : (fetchTree db pk).map CTree.comment
      = (db.comments.filter (fun c => c.post = pk ∧ c.parent = none)).insertionSort cLe := by
    unfold fetchTree
    rw [List.map_map]
    have h1 : CTree.comment ∘ serializeComment db.comments = id := by
      funext c
      simp [Function.comp, serializeComment_comment]
    rw [h1, List.map_id]
  have hgood : ∀ t ∈ fetchTree db pk, GoodTree db.comments t := by
    intro t ht
    unfold fetchTree at ht
    obtain ⟨c, hcmem, rfl⟩ := List.mem_map.mp ht
    exact goodTree_serializeComment db.comments hP
      ((db.comments.filter (fun e => c.id < e.id)).length + 1) c (by omega)
  refine ⟨?_, ?_, ?_⟩
  · rw [hroots]
    exact List.sorted_insertionSort cLe _
  · rw [hroots]
    exact List.perm_insertionSort cLe _
  · intro t ht
    have hg := treeMem_good ht hgood
    cases hg with
    | mk c rs hmap hrec =>
      constructor
      · show List.Sorted cLe (rs.map CTree.comment)
        rw [hmap]
        exact List.sorted_insertionSort cLe _
      · show (rs.map CTree.comment).Perm _
        rw [hmap]
        exact List.perm_insertionSort cLe _

/-- C5 witness: author 10 deletes post 1 on the populated store; the
cascade facts are instantiated there. -/
theorem C5_destroy_cascades_witness :
    ((∃ p ∈ dbCascade.posts, p.id = 1 ∧ p.author = 10) ∧
      (dbCascade.posts.map (fun p => p.id)).Nodup ∧
      RepostOriginOk dbCascade.posts ∧ ParentIdLt dbCascade.comments) ∧
    (∃ db2, destroyAction dbCascade 1 10 = (.ok (), db2) ∧
      (∀ p ∈ db2.posts, p.id ≠ 1) ∧
      (∀ p ∈ db2.posts, p.repostOf ≠ some 1) ∧
      (∀ r ∈ db2.stars, r.post ≠ 1) ∧
      (∀ r ∈ db2.saves, r.post ≠ 1) ∧
      (∀ r ∈ db2.whatsappShares, r.post ≠ 1) ∧
      (∀ c, DescOfPost dbCascade.comments 1 c → c ∉ db2.comments)) :=
  ⟨⟨by decide, by decide, by decide, by decide⟩,
    C5_destroy_cascades dbCascade 1 10 (by decide) (by decide) (by decide) (by decide)⟩

/-- C7 witness: the tree fetch of post 1 on the shuffled store. -/
theorem C7_comment_tree_witness :
    ParentIdLt dbTree.comments ∧
    (List.Sorted cLe ((fetchTree dbTree 1).map CTree.comment) ∧
     ((fetchTree dbTree 1).map CTree.comment).Perm
       (dbTree.comments.filter (fun c => c.post = 1 ∧ c.parent = none)) ∧
     (∀ t, TreeMem t (fetchTree dbTree 1) →
       List.Sorted cLe (t.replies.map CTree.comment) ∧
       (t.replies.map CTree.comment).Perm
         (dbTree.comments.filter (fun d => d.parent = some t.comment.id)))) :=
  ⟨by decide, C7_comment_tree dbTree 1 (by decide)⟩

/-- Two stored rows sharing the `(user, index)` key are the same row. -/
theorem slideKey_unique_eq {slides : List CoverSlideRow} {u idx : Nat}
    (huniq : SlideKeyUnique slides) {t s : CoverSlideRow}
    (ht : t ∈ slides) (hs : s ∈ slides)
    (htu : t.user = u) (hti : t.index = idx)
    (hsu : s.user = u) (hsi : s.index = idx) : t = s := by
  induction slides with
  | nil => cases ht
  | cons a l ih =>
    unfold SlideKeyUnique at huniq
    rw [List.pairwise_cons] at huniq
    obtain ⟨ha, huniq1⟩ := huniq
    rcases List.mem_cons.mp ht with rfl | ht1
    · rcases List.mem_cons.mp hs with rfl | hs1
      · rfl
      · exact ((ha s hs1) ⟨htu.trans hsu.symm, hti.trans hsi.symm⟩).elim
    · rcases List.mem_cons.mp hs with rfl | hs1
      · exact ((ha t ht1) ⟨hsu.trans htu.symm, hsi.trans hti.symm⟩).elim
      · exact ih huniq1 ht1 hs1

/-- When the slot row exists, `get_or_create` returns exactly it and leaves
the table unchanged. -/
theorem upsertBase_of_mem {slides : List CoverSlideRow} {u idx : Nat}
    (huniq : SlideKeyUnique slides) {s : CoverSlideRow} (hs : s ∈ slides)
    (hsu : s.user = u) (hsi : s.index = idx) :
    upsertBase slides u idx = (s, slides) := by
  unfold upsertBase
  cases hf : slides.find? (fun x => x.user = u ∧ x.index = idx) with
  | none =>
    exact absurd (show (decide (s.user = u ∧ s.index = idx)) = true by simp [hsu, hsi])
      (List.find?_eq_none.mp hf s hs)
  | some t =>
    have hkey := List.find?_some hf
    simp only [decide_eq_true_eq] at hkey
    have : t = s := slideKey_unique_eq huniq (List.mem_of_find?_eq_some hf) hs
      hkey.1 hkey.2 hsu hsi
    rw [this]

/-- `get_or_create` returns a row carrying the requested key. -/
theorem upsertBase_key (slides : List CoverSlideRow) (u idx : Nat) :
    (upsertBase slides u idx).1.user = u ∧ (upsertBase slides u idx).1.index = idx := by
  unfold upsertBase
  cases hf : slides.find? (fun x => x.user = u ∧ x.index = idx) with
  | none => exact ⟨rfl, rfl⟩
  | some t =>
    have hkey := List.find?_some hf
    simp only [decide_eq_true_eq] at hkey
    exact hkey

/-- The slot field updates never touch the row's key. -/
theorem applySlotFields_key (obj : CoverSlideRow) (cc cb : String) (inp : SlotInput) :
    (applySlotFields obj cc cb inp).user = obj.user ∧
    (applySlotFields obj cc cb inp).index = obj.index := by
  simp only [applySlotFields, applyStyles_eq]
  cases hfile : inp.file <;> split_ifs <;> simp

/-- With no new file and no clear flag, the slot field updates keep the
stored image. -/
theorem applySlotFields_image (obj : CoverSlideRow) (cc cb : String)
    (inp : SlotInput) (hfile : inp.file = none)
    (hclear : pyTruthy inp.clear = false) :
    (applySlotFields obj cc cb inp).image = obj.image := by
  simp only [applySlotFields, applyStyles_eq, hfile, hclear]
  split_ifs <;> simp_all

/-- With blank per-slot and blank common caption/bibliography, the slot
field updates keep the stored texts. -/
theorem applySlotFields_texts (obj : CoverSlideRow) (cc cb : String)
    (inp : SlotInput) (hsc : pyStrip inp.caption = "")
    (hsb : pyStrip inp.bibliography = "") (hcc : cc = "") (hcb : cb = "") :
    (applySlotFields obj cc cb inp).caption = obj.caption ∧
    (applySlotFields obj cc cb inp).bibliography = obj.bibliography := by
  simp only [applySlotFields, applyStyles_eq, hsc, hsb, hcc, hcb]
  simp only [ne_eq, not_true_eq_false, or_self, if_false]
  cases hfile : inp.file <;> split_ifs <;> simp

/-- A row of the upserted table that does not carry the addressed key was
already stored. -/
theorem upsertSlot_mem_inv {slides : List CoverSlideRow} {u j : Nat}
    {cc cb : String} {inp : SlotInput} {r : CoverSlideRow}
    (hr : r ∈ (upsertSlot slides u j cc cb inp).2)
    (hne : ¬(r.user = u ∧ r.index = j)) : r ∈ slides := by
  unfold upsertSlot at hr
  simp only at hr
  obtain ⟨t, ht, hgt⟩ := List.mem_map.mp hr
  by_cases hk : t.user = u ∧ t.index = j
  · rw [if_pos hk] at hgt
    subst hgt
    have hbk := upsertBase_key slides u j
    have hak := applySlotFields_key (upsertBase slides u j).1 cc cb inp
    exact absurd ⟨hak.1.trans hbk.1, hak.2.trans hbk.2⟩ hne
  · rw [if_neg hk] at hgt
    subst hgt
    unfold upsertBase at ht
    cases hf : slides.find? (fun x => x.user = u ∧ x.index = j) with
    | some t0 =>
      rw [hf] at ht
      exact ht
    | none =>
      rw [hf] at ht
      simp only at ht
      rcases List.mem_append.mp ht with h | h
      · exact h
      · simp only [List.mem_singleton] at h
        subst h
        exact absurd ⟨rfl, rfl⟩ hk

/-- A stored row that does not carry the addressed key survives the slot
upsert unchanged. -/
theorem upsertSlot_keeps {slides : List CoverSlideRow} {u j : Nat}
    {cc cb : String} {inp : SlotInput} {s : CoverSlideRow} (hs : s ∈ slides)
    (hne : ¬(s.user = u ∧ s.index = j)) :
    s ∈ (upsertSlot slides u j cc cb inp).2 := by
  unfold upsertSlot
  simp only
  apply List.mem_map.mpr
  refine ⟨s, ?_, if_neg hne⟩
  unfold upsertBase
  cases hf : slides.find? (fun x => x.user = u ∧ x.index = j) with
  | some t0 => exact hs
  | none => exact List.mem_append.mpr (Or.inl hs)

/-- The slot upsert preserves the `(user, index)` uniqueness constraint. -/
theorem upsertSlot_unique {slides : List CoverSlideRow} (u j : Nat)
    (cc cb : String) (inp : SlotInput) (huniq : SlideKeyUnique slides) :
    SlideKeyUnique (upsertSlot slides u j cc cb inp).2 := by
  unfold upsertSlot
  simp only
  have hbase : SlideKeyUnique (upsertBase slides u j).2 := by
    unfold upsertBase
    cases hf : slides.find? (fun x => x.user = u ∧ x.index = j) with
    | some t0 => exact huniq
    | none =>
      unfold SlideKeyUnique
      rw [List.pairwise_append]
      refine ⟨huniq, List.pairwise_singleton _ _, ?_⟩
      intro a ha b hb
      simp only [List.mem_singleton] at hb
      subst hb
      intro hcon
      exact List.find?_eq_none.mp hf a ha (by simp [hcon.1, hcon.2])
  unfold SlideKeyUnique at hbase ⊢
  rw [List.pairwise_map]
  have hbk := upsertBase_key slides u j
  have hak := applySlotFields_key (upsertBase slides u j).1 cc cb inp
  have hg : ∀ x : CoverSlideRow,
      ((if x.user = u ∧ x.index = j
        then applySlotFields (upsertBase slides u j).1 cc cb inp else x).user = x.user) ∧
      ((if x.user = u ∧ x.index = j
        then applySlotFields (upsertBase slides u j).1 cc cb inp else x).index = x.index) := by
    intro x
    by_cases hk : x.user = u ∧ x.index = j
    · rw [if_pos hk]
      exact ⟨hak.1.trans (hbk.1.trans hk.1.symm), hak.2.trans (hbk.2.trans hk.2.symm)⟩
    · rw [if_neg hk]
      exact ⟨rfl, rfl⟩
  refine hbase.imp ?_
  intro a b hab hcon
  apply hab
  exact ⟨((hg a).1.symm.trans hcon.1).trans (hg b).1,
         ((hg a).2.symm.trans hcon.2).trans (hg b).2⟩

/-- Within the upsert of its own slot, every result row carrying the
addressed key is the field-updated original row. -/
theorem upsertSlot_target {slides : List CoverSlideRow} {u idx : Nat}
    {cc cb : String} {inp : SlotInput} {s : CoverSlideRow}
    (huniq : SlideKeyUnique slides) (hs : s ∈ slides)
    (hsu : s.user = u) (hsi : s.index = idx) :
    ∀ r ∈ (upsertSlot slides u idx cc cb inp).2, r.user = u → r.index = idx →
      r = applySlotFields s cc cb inp := by
  intro r hr hru hri
  unfold upsertSlot at hr
  simp only at hr
  rw [upsertBase_of_mem huniq hs hsu hsi] at hr
  obtain ⟨t, ht, hgt⟩ := List.mem_map.mp hr
  by_cases hk : t.user = u ∧ t.index = idx
  · rw [if_pos hk] at hgt
    exact hgt.symm
  · rw [if_neg hk] at hgt
    subst hgt
    exact absurd ⟨hru, hri⟩ hk

/-- C10: on a cover-slide replace call, fields the request does not supply
are preserved for every slot 0..2 that already exists: with no new file and
no clear flag the slot keeps its stored image, and with blank per-slot
caption/bibliography together with blank request-level common
caption/bibliography the slot keeps its stored caption and bibliography —
whatever the other slots' inputs are. -/
theorem C10_unsupplied_fields_preserved (slides : List CoverSlideRow) (u idx : Nat)
    (ccRaw cbRaw : Option String) (inputs : Nat → SlotInput) (s : CoverSlideRow)
    (huniq : SlideKeyUnique slides) (hmem : s ∈ slides)
    (hsu : s.user = u) (hsi : s.index = idx) (hidx : idx < 3) :
    ((inputs idx).file = none → pyTruthy (inputs idx).clear = false →
      ∀ r ∈ (coverSlidesCreate slides u ccRaw cbRaw inputs).1,
        r.user = u → r.index = idx → r.image = s.image) ∧
    (pyStrip (inputs idx).caption = "" → pyStrip (inputs idx).bibliography = "" →
      pyStrip ccRaw = "" → pyStrip cbRaw = "" →
      ∀ r ∈ (coverSlidesCreate slides u ccRaw cbRaw inputs).1,
        r.user = u → r.index = idx →
        r.caption = s.caption ∧ r.bibliography = s.bibliography) := by
  have hcentral : ∀ r ∈ (coverSlidesCreate slides u ccRaw cbRaw inputs).1,
      r.user = u → r.index = idx →
      r = applySlotFields s (pyStrip ccRaw) (pyStrip cbRaw) (inputs idx) := by
    intro r hr hru hri
    simp only [coverSlidesCreate, List.foldl_cons, List.foldl_nil] at hr
    interval_cases idx
    · have h2 := upsertSlot_mem_inv hr
        (by rintro ⟨h1, h2⟩; exact absurd (hri.symm.trans h2) (by decide))
      have h1 := upsertSlot_mem_inv h2
        (by rintro ⟨hx1, hx2⟩; exact absurd (hri.symm.trans hx2) (by decide))
      exact upsertSlot_target huniq hmem hsu hsi r h1 hru hri
    · have h2 := upsertSlot_mem_inv hr
        (by rintro ⟨hx1, hx2⟩; exact absurd (hri.symm.trans hx2) (by decide))
      have hmem1 : s ∈ (upsertSlot slides u 0 (pyStrip ccRaw) (pyStrip cbRaw) (inputs 0)).2 :=
        upsertSlot_keeps hmem
          (by rintro ⟨hx1, hx2⟩; exact absurd (hsi.symm.trans hx2) (by decide))
      have huniq1 := upsertSlot_unique u 0 (pyStrip ccRaw) (pyStrip cbRaw) (inputs 0) huniq
      exact upsertSlot_target huniq1 hmem1 hsu hsi r h2 hru hri
    · have hmem1 : s ∈ (upsertSlot slides u 0 (pyStrip ccRaw) (pyStrip cbRaw) (inputs 0)).2 :=
        upsertSlot_keeps hmem
          (by rintro ⟨hx1, hx2⟩; exact absurd (hsi.symm.trans hx2) (by decide))
      have huniq1 := upsertSlot_unique u 0 (pyStrip ccRaw) (pyStrip cbRaw) (inputs 0) huniq
      have hmem2 : s ∈ (upsertSlot (upsertSlot slides u 0 (pyStrip ccRaw) (pyStrip cbRaw)
          (inputs 0)).2 u 1 (pyStrip ccRaw) (pyStrip cbRaw) (inputs 1)).2 :=
        upsertSlot_keeps hmem1
          (by rintro ⟨hx1, hx2⟩; exact absurd (hsi.symm.trans hx2) (by decide))
      have huniq2 := upsertSlot_unique u 1 (pyStrip ccRaw) (pyStrip cbRaw) (inputs 1) huniq1
      exact upsertSlot_target huniq2 hmem2 hsu hsi r hr hru hri
  constructor
  · intro hfile hclear r hr hru hri
    rw [hcentral r hr hru hri]
    exact applySlotFields_image s _ _ _ hfile hclear
  · intro hsc hsb hcc hcb r hr hru hri
    rw [hcentral r hr hru hri]
    exact applySlotFields_texts s _ _ _ hsc hsb hcc hcb

/-- C10 witness: a replace call supplying nothing for any slot leaves slot
0's stored image, caption and bibliography in place. -/
theorem C10_unsupplied_fields_preserved_witness :
    (SlideKeyUnique exSlides ∧ exSlide0 ∈ exSlides ∧ exSlide0.user = 1 ∧
      exSlide0.index = 0 ∧ (0 : Nat) < 3) ∧
    ((((fun _ : Nat => exBlankInput) 0).file = none →
      pyTruthy ((fun _ : Nat => exBlankInput) 0).clear = false →
      ∀ r ∈ (coverSlidesCreate exSlides 1 none none (fun _ => exBlankInput)).1,
        r.user = 1 → r.index = 0 → r.image = exSlide0.image) ∧
    (pyStrip ((fun _ : Nat => exBlankInput) 0).caption = "" →
      pyStrip ((fun _ : Nat => exBlankInput) 0).bibliography = "" →
      pyStrip none = "" → pyStrip none = "" →
      ∀ r ∈ (coverSlidesCreate exSlides 1 none none (fun _ => exBlankInput)).1,
        r.user = 1 → r.index = 0 →
        r.caption = exSlide0.caption ∧ r.bibliography = exSlide0.bibliography)) :=
  ⟨⟨List.pairwise_singleton _ _, List.mem_singleton.mpr rfl, rfl, rfl, by decide⟩,
    C10_unsupplied_fields_preserved exSlides 1 0 none none (fun _ => exBlankInput) exSlide0
      (List.pairwise_singleton _ _) (List.mem_singleton.mpr rfl) rfl rfl (by decide)⟩

end Finca

